import Mathlib

/-!
Verification of the ChangeUp game engine (`change-up.py`).

Slots of a goal hold Python one-character strings, embedded here as `Char`:
`'.'` is EMPTY, `'R'` is COLOR_A (red), `'B'` is COLOR_B (blue), `'-'` is the
removed marker written by `de_score`, and `','` is the (never-occurring) value
the `de_score` guard compares against.

Mutating Python methods are embedded as pure functions returning the new
state together with the method's return value.
-/

namespace ChangeUp

/-- The ChangeUp Goal: three ordered slots, bottom, middle, top.
`Goal.__init__` sets all three to `'.'`. -/
structure Goal where
  bottom : Char
  middle : Char
  top : Char
deriving DecidableEq, Repr

/-- `Goal.__init__`: all three slots empty. -/
def Goal.init : Goal := ⟨'.', '.', '.'⟩

/-- `Goal.score(color)`: returns (new state, Python return value). -/
def Goal.score (g : Goal) (color : Char) : Goal × Bool :=
  if g.top ≠ '.' then (g, false)
  else if g.bottom = '.' then ({ g with bottom := color }, true)
  else if g.middle = '.' then ({ g with middle := color }, true)
  else ({ g with top := color }, true)

/-- `Goal.de_score()`: guard compares `bottom` with `','`; otherwise slides
middle into bottom, top into middle, and writes `'-'` into top. -/
def Goal.de_score (g : Goal) : Goal × Bool :=
  if g.bottom = ',' then (g, false)
  else (⟨g.middle, g.top, '-'⟩, true)

/-- `Goal.owned_by()`: topmost slot different from `'.'`, else `'.'`. -/
def Goal.owned_by (g : Goal) : Char :=
  if g.top ≠ '.' then g.top
  else if g.middle ≠ '.' then g.middle
  else g.bottom

/-- `Goal.descriptor()`: three-digit encoding (2 = R, 1 = B, 0 otherwise),
divided by 1000.  Python's float arithmetic on these values is exact, so the
rationals are a faithful carrier. -/
def Goal.descriptor (g : Goal) : ℚ :=
  let d : ℕ :=
    (if g.bottom = 'R' then 2 else 0) + (if g.bottom = 'B' then 1 else 0)
    + (if g.middle = 'R' then 20 else 0) + (if g.middle = 'B' then 10 else 0)
    + (if g.top = 'R' then 200 else 0) + (if g.top = 'B' then 100 else 0)
  (d : ℚ) / 1000

/-- `Goal.get_score()`: (number of `'R'` slots, number of `'B'` slots). -/
def Goal.get_score (g : Goal) : ℕ × ℕ :=
  ((if g.bottom = 'R' then 1 else 0) + (if g.middle = 'R' then 1 else 0)
     + (if g.top = 'R' then 1 else 0),
   (if g.bottom = 'B' then 1 else 0) + (if g.middle = 'B' then 1 else 0)
     + (if g.top = 'B' then 1 else 0))

/-- The states a single Goal can actually be in at runtime: starting empty and
mutated only through `score` (with the program's colors `'R'`/`'B'`) and
`de_score`. -/
inductive Goal.Reachable : Goal → Prop
  | init : Goal.Reachable Goal.init
  | score {g : Goal} {c : Char} (hc : c = 'R' ∨ c = 'B')
      (hg : Goal.Reachable g) : Goal.Reachable (g.score c).1
  | de_score {g : Goal} (hg : Goal.Reachable g) :
      Goal.Reachable (g.de_score).1

/-- Every slot of a reachable goal is `'.'`, `'R'`, `'B'` or `'-'`. -/
lemma Goal.reachable_slots {g : Goal} (h : g.Reachable) :
    (g.bottom = '.' ∨ g.bottom = 'R' ∨ g.bottom = 'B' ∨ g.bottom = '-')
    ∧ (g.middle = '.' ∨ g.middle = 'R' ∨ g.middle = 'B' ∨ g.middle = '-')
    ∧ (g.top = '.' ∨ g.top = 'R' ∨ g.top = 'B' ∨ g.top = '-') := by
  induction h with
  | init => simp [Goal.init]
  | @score g c hc _ ih =>
      obtain ⟨hb, hm, ht⟩ := ih
      unfold Goal.score
      rcases hc with hc | hc <;> subst hc <;> split_ifs <;> simp_all
  | @de_score g _ ih =>
      obtain ⟨hb, hm, ht⟩ := ih
      unfold Goal.de_score
      split_ifs <;> simp_all

/-- One mutating call on a Goal, for stating invariants over call sequences. -/
inductive GoalOp
  | score (c : Char)
  | de_score
deriving DecidableEq, Repr

/-- Apply one call, keeping only the state. -/
def applyOp (g : Goal) : GoalOp → Goal
  | GoalOp.score c => (g.score c).1
  | GoalOp.de_score => (g.de_score).1

/-- Apply a sequence of calls. -/
def applyOps (g : Goal) (ops : List GoalOp) : Goal :=
  ops.foldl applyOp g

/-- The Field: Python holds the nine goals in a list. -/
structure Field where
  goals : List Goal
deriving DecidableEq, Repr

/-- `Field.__init__`: nine empty goals. -/
def Field.init : Field := ⟨List.replicate 9 Goal.init⟩

/-- Python list subscript semantics: `0 ≤ i < len` reads position `i`,
`-len ≤ i < 0` reads position `len + i`, anything else raises IndexError
(modelled as `none`). -/
def pySubscript (len : ℕ) (i : ℤ) : Option ℕ :=
  if 0 ≤ i then (if i < (len : ℤ) then some i.toNat else none)
  else if -(len : ℤ) ≤ i then some (i + len).toNat
  else none

/-- `Field.score(goal, color)`: `self.goals[goal].score(color)` with Python
subscripting; `none` models the raised IndexError. -/
def Field.score (f : Field) (goal : ℤ) (color : Char) : Option (Field × Bool) :=
  match pySubscript f.goals.length goal with
  | none => none
  | some k =>
      let r := (f.goals.getD k Goal.init).score color
      some (⟨f.goals.set k r.1⟩, r.2)

/-- The eight winning lines of `Field.get_score`. -/
def winningRows : List (ℕ × ℕ × ℕ) :=
  [(0,1,2), (3,4,5), (6,7,8), (0,3,6), (1,4,7), (2,5,8), (0,4,8), (2,4,6)]

/-- Does `f` own line `r` with color `c`: all three goals' `owned_by` equal `c`. -/
def Field.ownsRow (f : Field) (r : ℕ × ℕ × ℕ) (c : Char) : Bool :=
  ((f.goals.getD r.1 Goal.init).owned_by = c)
    ∧ ((f.goals.getD r.2.1 Goal.init).owned_by = c)
    ∧ ((f.goals.getD r.2.2 Goal.init).owned_by = c)

/-- `Field.get_score()`: per-goal token counts plus six points for each
winning line owned by a color. -/
def Field.get_score (f : Field) : ℕ × ℕ :=
  let s := f.goals.foldl
    (fun acc g => (acc.1 + g.get_score.1, acc.2 + g.get_score.2)) (0, 0)
  let s1 := winningRows.foldl
    (fun acc r => if f.ownsRow r 'R' then acc + 6 else acc) s.1
  let s2 := winningRows.foldl
    (fun acc r => if f.ownsRow r 'B' then acc + 6 else acc) s.2
  (s1, s2)

/-- `Field.get_descriptors()`: the nine descriptors in goal order. -/
def Field.get_descriptors (f : Field) : List ℚ :=
  (List.range 9).map fun i => (f.goals.getD i Goal.init).descriptor

/-- An external decision policy (`self.net.activate`): 10 inputs, 18 outputs. -/
def Net : Type := List ℚ → List ℚ

/-- Python `max(output)` on a non-empty list ( `0` stands for the error raised
on an empty list, which the 18-output contract rules out). -/
def pyMax : List ℚ → ℚ
  | [] => 0
  | a :: rest => rest.foldl max a

/-- Python `list.index(x)`: position of the first occurrence (length if
absent, standing for the ValueError, never hit when `x` is `pyMax`). -/
def firstIdxOf (x : ℚ) : List ℚ → ℕ
  | [] => 0
  | a :: rest => if a = x then 0 else firstIdxOf x rest + 1

/-- Overwrite goal `k` of a field by `score color` (the mutation
`field.goals[k].score(color)` performs). -/
def scoreGoal (f : Field) (k : ℕ) (color : Char) : Field :=
  ⟨f.goals.set k ((f.goals.getD k Goal.init).score color).1⟩

/-- Overwrite goal `k` of a field by `de_score` (the mutation
`field.goals[k].de_score()` performs). -/
def deScoreGoal (f : Field) (k : ℕ) : Field :=
  ⟨f.goals.set k ((f.goals.getD k Goal.init).de_score).1⟩

/-- The input vector `neat_choice` builds: the color indicator followed by
the nine goal descriptors. -/
def neatInput (color : Char) (f : Field) : List ℚ :=
  (if color = 'R' then (1 : ℚ) else -1) :: f.get_descriptors

/-- `Player.neat_choice(field, color)`: query the net, take the first index
of the maximum output; below 9 score that goal, otherwise de-score goal
`index - 9`. -/
def neat_choice (net : Net) (f : Field) (color : Char) : Field :=
  let output := net (neatInput color f)
  let k := firstIdxOf (pyMax output) output
  if k < 9 then scoreGoal f k color
  else deScoreGoal f (k - 9)

/-- A player's effect on the field for one move (the `make_move` capability;
`random_choice` and `neat_choice` both mutate the field and discard the
boolean). -/
def Move : Type := Field → Char → Field

/-- The policy-driven player built by `eval_genomes`. -/
def neatPlayer (net : Net) : Move := fun f c => neat_choice net f c

/-- `play_a_game(field, player1, player2)`: ten rounds, player 1 as `'R'`
then player 2 as `'B'` each round; returns the final field. -/
def play_a_game (p1 p2 : Move) (f : Field) : Field :=
  (List.range 10).foldl (fun fld _ => p2 (p1 fld 'R') 'B') f

/-- The ordered list of the 20 actions a game performs: who moves, as which
color. -/
def gameActions (p1 p2 : Move) : List (Move × Char) :=
  (List.range 10).flatMap fun _ => [(p1, 'R'), (p2, 'B')]

/-- Tournament statistics: win counters (roster-aligned), high score,
grand total. -/
def TournStats : Type := List ℕ × ℕ × ℕ

/-- A placeholder player for out-of-roster indices (never reached: the
schedule only holds indices below the roster length). -/
def idleMove : Move := fun f _ => f

/-- One match of the tournament body: play `players[i]` (as `'R'`) against
`players[j]` (as `'B'`) on a fresh field and accumulate the statistics in
source order (wins, then total, then high score). -/
def playMatch (players : List Move) (st : TournStats) (ij : ℕ × ℕ) : TournStats :=
  let f := play_a_game (players.getD ij.1 idleMove) (players.getD ij.2 idleMove)
    Field.init
  let score := f.get_score
  let wins :=
    if score.1 > score.2 then st.1.set ij.1 (st.1.getD ij.1 0 + 1)
    else if score.2 > score.1 then st.1.set ij.2 (st.1.getD ij.2 0 + 1)
    else st.1
  let total := st.2.2 + score.1 + score.2
  let high := if max score.1 score.2 > st.2.1 then max score.1 score.2 else st.2.1
  (wins, high, total)

/-- The ordered pairs `(i, j)`, `i ≠ j`, in the nested-loop order of
`play_a_tournament`. -/
def orderedPairs (n : ℕ) : List (ℕ × ℕ) :=
  (List.range n).flatMap fun i =>
    ((List.range n).filter fun j => i ≠ j).map fun j => (i, j)

/-- All matches of a tournament: the round-robin repeated `rounds` times. -/
def matchSchedule (rounds n : ℕ) : List (ℕ × ℕ) :=
  (List.range rounds).flatMap fun _ => orderedPairs n

/-- `play_a_tournament(players, rounds)`: returns (wins, high_score,
total_score). -/
def play_a_tournament (players : List Move) (rounds : ℕ) : TournStats :=
  (matchSchedule rounds players.length).foldl (playMatch players)
    (List.replicate players.length 0, 0, 0)

/-- The final (red, blue) score of the match player `i` vs player `j`. -/
def gameScorePair (players : List Move) (ij : ℕ × ℕ) : ℕ × ℕ :=
  (play_a_game (players.getD ij.1 idleMove) (players.getD ij.2 idleMove)
    Field.init).get_score

/-- `eval_genomes(genomes, config)`: build one policy-driven player per
genome, play one tournament with the default single round, and write
`wins[i]` back as genome `i`'s fitness.  `netOf` stands for the external
`neat.nn.FeedForwardNetwork.create(genome, config)`; the returned list is
the sequence of fitness values written back, genome order. -/
def eval_genomes {γ : Type} (netOf : γ → Net) (genomes : List (ℕ × γ)) : List ℕ :=
  let players : List Move := genomes.map fun g => neatPlayer (netOf g.2)
  let wins := (play_a_tournament players 1).1
  (List.range wins.length).map fun i => wins.getD i 0

/-! ### Goal-level lemmas -/

/-- A full goal rejects every `score` call and is left unchanged. -/
lemma Goal.score_of_top_ne (g : Goal) (c : Char) (h : g.top ≠ '.') :
    g.score c = (g, false) := by
  simp [Goal.score, h]

/-- Neither operation can empty the top slot once it is non-empty. -/
lemma Goal.top_ne_applyOp (g : Goal) (op : GoalOp) (h : g.top ≠ '.') :
    (applyOp g op).top ≠ '.' := by
  cases op with
  | score c => rw [applyOp, Goal.score_of_top_ne g c h]; exact h
  | de_score =>
      rw [applyOp]
      unfold Goal.de_score
      split_ifs with hb
      · exact h
      · simp

/-- A non-empty top slot persists through any sequence of calls. -/
lemma Goal.top_ne_applyOps (ops : List GoalOp) (g : Goal) (h : g.top ≠ '.') :
    (applyOps g ops).top ≠ '.' := by
  induction ops generalizing g with
  | nil => exact h
  | cons op rest ih =>
      rw [applyOps, List.foldl_cons]
      exact ih _ (Goal.top_ne_applyOp g op h)

/-- No reachable goal has a `','` in its bottom slot, so the `de_score`
guard never fires. -/
lemma Goal.reachable_bottom_ne (g : Goal) (h : g.Reachable) :
    g.bottom ≠ ',' := by
  rcases (Goal.reachable_slots h).1 with hb | hb | hb | hb <;> simp [hb]

/-! ### Claim theorems: Goal -/

/-- C1: `score(color)` returns false and leaves all three slots unchanged
when the top slot is non-empty (capacity exactly 3); otherwise it puts
`color` into the lowest-indexed empty slot among bottom, middle, top in that
fixed order and returns true.  Starting from an empty Goal, the first three
`score` calls succeed filling bottom, then middle, then top, and the fourth
fails leaving the state unchanged (for any actual colors, i.e. non-EMPTY
values). -/
theorem C1_goal_score_spec (g : Goal) (c c1 c2 c3 c4 : Char)
    (h1 : c1 ≠ '.') (h2 : c2 ≠ '.') (h3 : c3 ≠ '.') :
    (g.top ≠ '.' → g.score c = (g, false))
    ∧ (g.top = '.' → g.bottom = '.' →
        g.score c = ({ g with bottom := c }, true))
    ∧ (g.top = '.' → g.bottom ≠ '.' → g.middle = '.' →
        g.score c = ({ g with middle := c }, true))
    ∧ (g.top = '.' → g.bottom ≠ '.' → g.middle ≠ '.' →
        g.score c = ({ g with top := c }, true))
    ∧ Goal.init.score c1 = (⟨c1, '.', '.'⟩, true)
    ∧ (Goal.init.score c1).1.score c2 = (⟨c1, c2, '.'⟩, true)
    ∧ ((Goal.init.score c1).1.score c2).1.score c3 = (⟨c1, c2, c3⟩, true)
    ∧ (((Goal.init.score c1).1.score c2).1.score c3).1.score c4
        = ((⟨c1, c2, c3⟩ : Goal), false) := by
  refine ⟨fun h => Goal.score_of_top_ne g c h, ?_, ?_, ?_, ?_, ?_, ?_, ?_⟩ <;>
    simp [Goal.score, Goal.init, h1, h2, h3] <;> intros <;> simp_all

/-- Witness for C1 at concrete inputs. -/
theorem C1_goal_score_spec_witness :
    (((Goal.init.score 'R').1.score 'B').1.score 'R').1.score 'B'
      = ((⟨'R', 'B', 'R'⟩ : Goal), false) :=
  (C1_goal_score_spec Goal.init 'R' 'R' 'B' 'R' 'B' (by decide) (by decide)
    (by decide)).2.2.2.2.2.2.2

/-- C2: on every state the program can put a Goal in — the all-empty initial
state included — `de_score()` never fails: it slides middle into bottom and
top into middle, writes the removed marker `'-'` (distinct from EMPTY) into
top, and returns true, because its guard compares `bottom` with `','`, a
value no slot ever holds. -/
theorem C2_de_score_never_fails (g : Goal) (h : g.Reachable) :
    g.de_score = ((⟨g.middle, g.top, '-'⟩ : Goal), true)
    ∧ (g.de_score).1.top = '-' ∧ ('-' : Char) ≠ '.' := by
  have hb : g.bottom ≠ ',' := Goal.reachable_bottom_ne g h
  refine ⟨?_, ?_, by decide⟩ <;> simp [Goal.de_score, hb]

/-- Witness for C2: `de_score` on the empty goal succeeds. -/
theorem C2_de_score_never_fails_witness :
    Goal.init.de_score = ((⟨'.', '.', '-'⟩ : Goal), true) :=
  (C2_de_score_never_fails Goal.init Goal.Reachable.init).1

/-- Counterexample to C3: one `de_score` on the empty goal reaches a state
whose `owned_by()` is the removed marker — neither COLOR_A, nor COLOR_B,
nor EMPTY. -/
theorem C3_counterexample :
    Goal.Reachable (Goal.init.de_score).1
    ∧ (Goal.init.de_score).1.owned_by ≠ 'R'
    ∧ (Goal.init.de_score).1.owned_by ≠ 'B'
    ∧ (Goal.init.de_score).1.owned_by ≠ '.' :=
  ⟨Goal.Reachable.de_score Goal.Reachable.init, by decide, by decide, by decide⟩

/-- C3 (amended): `owned_by()` returns the value of the topmost slot that is
not EMPTY, checking top, then middle, then bottom, and EMPTY when all three
are EMPTY; on every reachable state the returned value is COLOR_A, COLOR_B,
EMPTY, or the removed marker `'-'` (which `de_score` can place in a slot). -/
theorem C3_owned_by_amended (g : Goal) (h : g.Reachable) :
    (g.top ≠ '.' → g.owned_by = g.top)
    ∧ (g.top = '.' → g.middle ≠ '.' → g.owned_by = g.middle)
    ∧ (g.top = '.' → g.middle = '.' → g.owned_by = g.bottom)
    ∧ (g.owned_by = 'R' ∨ g.owned_by = 'B' ∨ g.owned_by = '.'
        ∨ g.owned_by = '-') := by
  obtain ⟨hb, hm, ht⟩ := Goal.reachable_slots h
  refine ⟨?_, ?_, ?_, ?_⟩ <;> unfold Goal.owned_by <;> split_ifs <;> tauto

/-- Witness for C3 (amended): the empty goal is owned by EMPTY. -/
theorem C3_owned_by_amended_witness :
    Goal.init.owned_by = 'R' ∨ Goal.init.owned_by = 'B'
    ∨ Goal.init.owned_by = '.' ∨ Goal.init.owned_by = '-' :=
  (C3_owned_by_amended Goal.init Goal.Reachable.init).2.2.2

/-- C10: once `de_score` has run on a (reachable) Goal, every later `score`
call — after any further sequence of operations — returns false and leaves
the state unchanged: the removed marker in the top slot is distinct from
EMPTY and never cleared; and three consecutive `de_score` calls fill all
three slots with the removed marker. -/
theorem C10_de_scored_goal_locked (g : Goal) (h : g.Reachable) :
    (∀ ops c, (applyOps (g.de_score).1 ops).score c
        = (applyOps (g.de_score).1 ops, false))
    ∧ (g.de_score).1.top = '-' ∧ ('-' : Char) ≠ '.'
    ∧ applyOps g [GoalOp.de_score, GoalOp.de_score, GoalOp.de_score]
        = (⟨'-', '-', '-'⟩ : Goal) := by
  obtain ⟨hb, hm, ht⟩ := Goal.reachable_slots h
  have hb' : g.bottom ≠ ',' := by rcases hb with h' | h' | h' | h' <;> simp [h']
  have hm' : g.middle ≠ ',' := by rcases hm with h' | h' | h' | h' <;> simp_all
  have ht' : g.top ≠ ',' := by rcases ht with h' | h' | h' | h' <;> simp_all
  refine ⟨fun ops c => ?_, ?_, by decide, ?_⟩
  · have htop : ((g.de_score).1).top ≠ '.' := by simp [Goal.de_score, hb']
    exact Goal.score_of_top_ne _ c (Goal.top_ne_applyOps ops _ htop)
  · simp [Goal.de_score, hb']
  · simp [applyOps, applyOp, Goal.de_score, hb', hm', ht']

/-- Witness for C10: after one `de_score` on the empty goal (followed by
another `de_score`), scoring fails, and the triple `de_score` fills the
goal with removed markers. -/
theorem C10_de_scored_goal_locked_witness :
    (applyOps (Goal.init.de_score).1 [GoalOp.de_score]).score 'R'
      = (applyOps (Goal.init.de_score).1 [GoalOp.de_score], false)
    ∧ applyOps Goal.init [GoalOp.de_score, GoalOp.de_score, GoalOp.de_score]
        = (⟨'-', '-', '-'⟩ : Goal) :=
  ⟨(C10_de_scored_goal_locked Goal.init Goal.Reachable.init).1
      [GoalOp.de_score] 'R',
   (C10_de_scored_goal_locked Goal.init Goal.Reachable.init).2.2.2⟩

/-! ### Field-level lemmas -/

/-- The pairwise-sum fold of `Field.get_score` splits into two componentwise
sums. -/
lemma foldl_pair_sum (l : List Goal) (a b : ℕ) :
    l.foldl (fun acc g => (acc.1 + g.get_score.1, acc.2 + g.get_score.2)) (a, b)
      = (a + (l.map fun g => g.get_score.1).sum,
         b + (l.map fun g => g.get_score.2).sum) := by
  induction l generalizing a b with
  | nil => simp
  | cons g rest ih => simp [ih, Nat.add_assoc]

/-- The bonus fold of `Field.get_score` adds six per line satisfying the
ownership test. -/
lemma foldl_bonus (l : List (ℕ × ℕ × ℕ)) (p : ℕ × ℕ × ℕ → Bool) (a : ℕ) :
    l.foldl (fun acc r => if p r then acc + 6 else acc) a
      = a + 6 * l.countP p := by
  induction l generalizing a with
  | nil => simp
  | cons r rest ih =>
      by_cases hr : p r
      · simp only [List.foldl_cons, List.countP_cons, hr, if_pos, ih]
        ring
      · simp [ih, hr, List.countP_cons]

/-- The fold computing Python's `max` only grows its accumulator. -/
lemma foldl_max_init_le (t : List ℚ) : ∀ b : ℚ, b ≤ t.foldl max b := by
  induction t with
  | nil => intro b; simp
  | cons c rest ih =>
      intro b
      rw [List.foldl_cons]
      exact le_trans (le_max_left b c) (ih (max b c))

/-- The fold computing Python's `max` bounds every list element. -/
lemma le_foldl_max (t : List ℚ) : ∀ (b x : ℚ), x ∈ t → x ≤ t.foldl max b := by
  induction t with
  | nil => intro b x hx; simp at hx
  | cons c rest ih =>
      intro b x hx
      rw [List.foldl_cons]
      rcases List.mem_cons.1 hx with hx | hx
      · subst hx
        exact le_trans (le_max_right b x) (foldl_max_init_le rest (max b x))
      · exact ih (max b c) x hx

/-- Python's `max` bounds every element of the list. -/
lemma le_pyMax (l : List ℚ) : ∀ x ∈ l, x ≤ pyMax l := by
  intro x hx
  cases l with
  | nil => simp at hx
  | cons a rest =>
      rw [pyMax]
      rcases List.mem_cons.1 hx with hx | hx
      · subst hx
        exact foldl_max_init_le rest x
      · exact le_foldl_max rest a x hx

/-- The fold computing Python's `max` stays at its accumulator or lands in
the list. -/
lemma foldl_max_mem (t : List ℚ) :
    ∀ b : ℚ, t.foldl max b = b ∨ t.foldl max b ∈ t := by
  induction t with
  | nil => intro b; simp
  | cons c rest ih =>
      intro b
      rw [List.foldl_cons]
      rcases ih (max b c) with h' | h'
      · rw [h']
        rcases max_choice b c with hm | hm
        · exact Or.inl hm
        · exact Or.inr (by rw [hm]; exact List.mem_cons_self c rest)
      · exact Or.inr (List.mem_cons_of_mem c h')

/-- Python's `max` of a non-empty list is one of its elements. -/
lemma pyMax_mem (l : List ℚ) (h : l ≠ []) : pyMax l ∈ l := by
  cases l with
  | nil => exact absurd rfl h
  | cons a rest =>
      rw [pyMax]
      rcases foldl_max_mem rest a with h' | h'
      · rw [h']; exact List.mem_cons_self a rest
      · exact List.mem_cons_of_mem a h'

/-- `firstIdxOf` of a member is below the length. -/
lemma firstIdxOf_lt_length (x : ℚ) (l : List ℚ) (h : x ∈ l) :
    firstIdxOf x l < l.length := by
  induction l with
  | nil => simp at h
  | cons a rest ih =>
      rw [firstIdxOf]
      split_ifs with ha
      · simp
      · rcases List.mem_cons.1 h with h' | h'
        · exact absurd h'.symm ha
        · simpa using ih h'

/-- `firstIdxOf` finds the value it looks for. -/
lemma getD_firstIdxOf (x : ℚ) (l : List ℚ) (h : x ∈ l) :
    l.getD (firstIdxOf x l) 0 = x := by
  induction l with
  | nil => simp at h
  | cons a rest ih =>
      rw [firstIdxOf]
      split_ifs with ha
      · simpa using ha
      · rcases List.mem_cons.1 h with h' | h'
        · exact absurd h'.symm ha
        · simpa using ih h'

/-- No position before `firstIdxOf` holds the value. -/
lemma getD_ne_of_lt_firstIdxOf (x : ℚ) (l : List ℚ) :
    ∀ j < firstIdxOf x l, l.getD j 0 ≠ x := by
  induction l with
  | nil => simp [firstIdxOf]
  | cons a rest ih =>
      intro j hj
      rw [firstIdxOf] at hj
      split_ifs at hj with ha
      · omega
      · match j with
        | 0 => simpa using ha
        | j + 1 => simpa using ih j (by omega)

/-! ### Claim theorems: Field and policy-driven moves -/

set_option maxRecDepth 8192 in
/-- C4: `Field.get_score()` is the componentwise sum of the nine goals'
(COLOR_A count, COLOR_B count) pairs plus a 6-point bonus per color for each
of the 8 winning lines fully owned by that color, the lines evaluated
independently per color; the empty Field scores (0, 0); a Field whose goals
0, 1, 2 each hold one COLOR_A token (all others empty) scores (9, 0). -/
theorem C4_field_get_score_spec (f : Field) :
    f.get_score
      = ((f.goals.map fun g => g.get_score.1).sum
           + 6 * (winningRows.countP fun r => f.ownsRow r 'R'),
         (f.goals.map fun g => g.get_score.2).sum
           + 6 * (winningRows.countP fun r => f.ownsRow r 'B'))
    ∧ winningRows.length = 8
    ∧ Field.init.get_score = (0, 0)
    ∧ (Field.mk ([⟨'R', '.', '.'⟩, ⟨'R', '.', '.'⟩, ⟨'R', '.', '.'⟩]
         ++ List.replicate 6 Goal.init)).get_score = (9, 0) := by
  refine ⟨?_, by decide, by decide, by decide⟩
  rw [Field.get_score, foldl_pair_sum, foldl_bonus, foldl_bonus]
  simp

/-- C5: `neat_choice` builds the 10-element input vector (color indicator
`+1` for COLOR_A / `-1` otherwise, then the 9 goal descriptors in field
order), picks the lowest index attaining the maximum of the 18 outputs, and
scores that goal when the index is below 9, or de-scores goal `index - 9`
otherwise; a maximum at index 9 de-scores goal 0. -/
theorem C5_neat_choice_spec (net : Net) (f : Field) (c : Char)
    (hlen : (net (neatInput c f)).length = 18) :
    neatInput c f = (if c = 'R' then (1 : ℚ) else -1) :: f.get_descriptors
    ∧ (neatInput c f).length = 10
    ∧ firstIdxOf (pyMax (net (neatInput c f))) (net (neatInput c f)) < 18
    ∧ (net (neatInput c f)).getD
        (firstIdxOf (pyMax (net (neatInput c f))) (net (neatInput c f))) 0
        = pyMax (net (neatInput c f))
    ∧ (∀ j < firstIdxOf (pyMax (net (neatInput c f))) (net (neatInput c f)),
        (net (neatInput c f)).getD j 0 ≠ pyMax (net (neatInput c f)))
    ∧ (∀ x ∈ net (neatInput c f), x ≤ pyMax (net (neatInput c f)))
    ∧ (firstIdxOf (pyMax (net (neatInput c f))) (net (neatInput c f)) < 9 →
        neat_choice net f c = scoreGoal f
          (firstIdxOf (pyMax (net (neatInput c f))) (net (neatInput c f))) c)
    ∧ (9 ≤ firstIdxOf (pyMax (net (neatInput c f))) (net (neatInput c f)) →
        neat_choice net f c = deScoreGoal f
          (firstIdxOf (pyMax (net (neatInput c f))) (net (neatInput c f)) - 9))
    ∧ (firstIdxOf (pyMax (net (neatInput c f))) (net (neatInput c f)) = 9 →
        neat_choice net f c = deScoreGoal f 0) := by
  have hne : net (neatInput c f) ≠ [] := by
    intro h0; rw [h0] at hlen; simp at hlen
  have hmem := pyMax_mem _ hne
  refine ⟨rfl, by simp [neatInput, Field.get_descriptors], ?_,
    getD_firstIdxOf _ _ hmem, getD_ne_of_lt_firstIdxOf _ _, le_pyMax _, ?_, ?_, ?_⟩
  · have := firstIdxOf_lt_length _ _ hmem
    omega
  · intro hk; simp [neat_choice, hk]
  · intro hk; simp [neat_choice, Nat.not_lt.2 hk]
  · intro hk; simp [neat_choice, hk]

set_option maxRecDepth 32768 in
/-- Witness for C5: a constant net whose single maximal output sits at
index 9 makes the move de-score goal 0. -/
theorem C5_neat_choice_spec_witness :
    neat_choice
      (fun _ => [0, 0, 0, 0, 0, 0, 0, 0, 0, 1, 0, 0, 0, 0, 0, 0, 0, 0])
      Field.init 'R' = deScoreGoal Field.init 0 :=
  (C5_neat_choice_spec
      (fun _ => [0, 0, 0, 0, 0, 0, 0, 0, 0, 1, 0, 0, 0, 0, 0, 0, 0, 0])
      Field.init 'R' rfl).2.2.2.2.2.2.2.2 (by decide)

/-- Counterexample to C6: goal index `-1` is outside [0,8], yet
`Field.score` on the empty field neither raises nor rejects — it wraps to
goal 8 (Python negative indexing), mutates it, and returns true. -/
theorem C6_counterexample :
    Field.score Field.init (-1) 'R'
      = some (⟨List.replicate 8 Goal.init ++ [⟨'R', '.', '.'⟩]⟩, true)
    ∧ (⟨List.replicate 8 Goal.init ++ [⟨'R', '.', '.'⟩]⟩ : Field)
        ≠ Field.init := by
  constructor
  · rfl
  · decide

/-- C6 (amended): on a nine-goal field, `Field.score` raises IndexError
(mutating nothing) exactly for indices `≥ 9` or `< -9`; indices in [0,8]
address that goal; indices in [-9,-1] are silently accepted through
Python's negative-index wrapping and behave exactly like index `i + 9`,
possibly mutating that goal. -/
theorem C6_field_score_amended (f : Field) (hf : f.goals.length = 9)
    (i : ℤ) (c : Char) :
    (9 ≤ i ∨ i < -9 → Field.score f i c = none)
    ∧ (0 ≤ i → i < 9 → Field.score f i c
        = some (⟨f.goals.set i.toNat ((f.goals.getD i.toNat Goal.init).score c).1⟩,
                ((f.goals.getD i.toNat Goal.init).score c).2))
    ∧ (-9 ≤ i → i < 0 → Field.score f i c = Field.score f (i + 9) c) := by
  have key : ∀ j : ℤ, pySubscript f.goals.length j
      = if 0 ≤ j then (if j < 9 then some j.toNat else none)
        else if -9 ≤ j then some (j + 9).toNat else none := by
    intro j
    simp only [pySubscript, hf]
    norm_num
  refine ⟨?_, ?_, ?_⟩
  · intro h
    unfold Field.score
    rw [key]
    split_ifs <;> first | rfl | omega
  · intro h0 h9
    unfold Field.score
    rw [key, if_pos h0, if_pos h9]
  · intro hlo hhi
    unfold Field.score
    rw [key i, key (i + 9), if_neg (by omega : ¬ (0 : ℤ) ≤ i), if_pos hlo,
      if_pos (by omega : (0 : ℤ) ≤ i + 9), if_pos (by omega : i + 9 < 9)]

/-- Witness for C6 (amended): on the empty field, index 9 raises and index
-1 behaves like index 8. -/
theorem C6_field_score_amended_witness :
    Field.score Field.init 9 'R' = none
    ∧ Field.score Field.init (-1) 'R' = Field.score Field.init 8 'R' := by
  constructor
  · exact (C6_field_score_amended Field.init (by decide) 9 'R').1
      (Or.inl (by decide))
  · have h := (C6_field_score_amended Field.init (by decide) (-1) 'R').2.2
      (by decide) (by decide)
    simpa using h

/-! ### Match and tournament lemmas -/

/-- Removing one in-range value from `range n` by filtering leaves `n - 1`
elements. -/
lemma filter_ne_range_length (n i : ℕ) (hi : i < n) :
    ((List.range n).filter fun j => i ≠ j).length = n - 1 := by
  have he : ((List.range n).filter fun j => i ≠ j) = (List.range n).erase i := by
    rw [(List.nodup_range n).erase_eq_filter]
    apply List.filter_congr
    intro j _
    by_cases h : i = j
    · simp [h]
    · simp [h, Ne.symm h]
  rw [he, List.length_erase_of_mem (List.mem_range.2 hi), List.length_range]

/-- The nested `for i / for j / if i != j` loop enumerates `n * (n - 1)`
pairs. -/
lemma orderedPairs_length (n : ℕ) : (orderedPairs n).length = n * (n - 1) := by
  rw [orderedPairs, List.length_flatMap]
  have h : ∀ i ∈ List.range n,
      ((((List.range n).filter fun j => i ≠ j).map fun j => (i, j)).length)
        = n - 1 := by
    intro i hi
    rw [List.length_map]
    exact filter_ne_range_length n i (List.mem_range.1 hi)
  simp only [Function.comp_def]
  rw [List.map_congr_left h, List.map_const', List.sum_replicate,
    List.length_range, smul_eq_mul]

/-- A tournament schedules `rounds * n * (n - 1)` matches. -/
lemma matchSchedule_length (rounds n : ℕ) :
    (matchSchedule rounds n).length = rounds * (n * (n - 1)) := by
  rw [matchSchedule, List.length_flatMap]
  have h : ∀ i ∈ List.range rounds, (orderedPairs n).length = n * (n - 1) :=
    fun _ _ => orderedPairs_length n
  simp only [Function.comp_def]
  rw [List.map_congr_left h, List.map_const', List.sum_replicate,
    List.length_range, smul_eq_mul]

/-- One match leaves the length of the win-counter list unchanged. -/
lemma playMatch_wins_length (players : List Move) (st : TournStats)
    (ij : ℕ × ℕ) : (playMatch players st ij).1.length = st.1.length := by
  simp only [playMatch]
  split_ifs <;> simp

/-- Folding matches leaves the length of the win-counter list unchanged. -/
lemma foldl_wins_length (players : List Move) (sch : List (ℕ × ℕ)) (st : TournStats) :
    ((sch.foldl (playMatch players) st).1).length = st.1.length := by
  induction sch generalizing st with
  | nil => rfl
  | cons ij rest ih => rw [List.foldl_cons, ih, playMatch_wins_length]

/-- Bumping one counter raises the sum of the list by at most one. -/
lemma sum_set_getD_succ (l : List ℕ) (k : ℕ) :
    (l.set k (l.getD k 0 + 1)).sum ≤ l.sum + 1 := by
  induction l generalizing k with
  | nil => simp
  | cons a rest ih =>
      cases k with
      | zero =>
          have hset : (a :: rest).set 0 ((a :: rest).getD 0 0 + 1)
              = (a + 1) :: rest := rfl
          rw [hset, List.sum_cons, List.sum_cons]
          omega
      | succ k =>
          have hset : (a :: rest).set (k + 1) ((a :: rest).getD (k + 1) 0 + 1)
              = a :: rest.set k (rest.getD k 0 + 1) := rfl
          rw [hset, List.sum_cons, List.sum_cons]
          have := ih k
          omega

/-- One match adds at most one win in total. -/
lemma playMatch_wins_sum (players : List Move) (st : TournStats)
    (ij : ℕ × ℕ) : (playMatch players st ij).1.sum ≤ st.1.sum + 1 := by
  simp only [playMatch]
  split_ifs <;>
    first
      | exact sum_set_getD_succ _ _
      | exact Nat.le_add_right _ 1

/-- Folding matches adds at most one win per match in total. -/
lemma foldl_wins_sum (players : List Move) (sch : List (ℕ × ℕ)) (st : TournStats) :
    ((sch.foldl (playMatch players) st).1).sum ≤ st.1.sum + sch.length := by
  induction sch generalizing st with
  | nil => simp
  | cons ij rest ih =>
      rw [List.foldl_cons]
      have h1 := ih (playMatch players st ij)
      have h2 := playMatch_wins_sum players st ij
      simp only [List.length_cons]
      omega

/-- One match adds the game's two totals to the running grand total. -/
lemma playMatch_total (players : List Move) (st : TournStats) (ij : ℕ × ℕ) :
    (playMatch players st ij).2.2
      = st.2.2 + (gameScorePair players ij).1 + (gameScorePair players ij).2 :=
  rfl

/-- One match replaces the running high score by its maximum with the game's
larger color total. -/
lemma playMatch_high (players : List Move) (st : TournStats) (ij : ℕ × ℕ) :
    (playMatch players st ij).2.1
      = max st.2.1 (max (gameScorePair players ij).1 (gameScorePair players ij).2) := by
  simp only [playMatch, gameScorePair]
  rw [Nat.max_def]
  split_ifs <;> omega

/-- The grand total of a schedule fold is the sum of the per-game totals. -/
lemma foldl_total (players : List Move) (sch : List (ℕ × ℕ)) (st : TournStats) :
    ((sch.foldl (playMatch players) st).2.2)
      = st.2.2 + (sch.map fun ij =>
          (gameScorePair players ij).1 + (gameScorePair players ij).2).sum := by
  induction sch generalizing st with
  | nil => simp
  | cons ij rest ih =>
      rw [List.foldl_cons, ih, playMatch_total]
      simp only [List.map_cons, List.sum_cons]
      omega

/-- The high score of a schedule fold is the running maximum of the per-game
maxima. -/
lemma foldl_high (players : List Move) (sch : List (ℕ × ℕ)) (st : TournStats) :
    ((sch.foldl (playMatch players) st).2.1)
      = sch.foldl (fun h ij =>
          max h (max (gameScorePair players ij).1 (gameScorePair players ij).2))
        st.2.1 := by
  induction sch generalizing st with
  | nil => rfl
  | cons ij rest ih =>
      rw [List.foldl_cons, List.foldl_cons, ih, playMatch_high]

/-- Reading a list back off by position is the identity. -/
lemma map_getD_range (l : List ℕ) :
    (List.range l.length).map (fun i => l.getD i 0) = l := by
  induction l with
  | nil => rfl
  | cons a rest ih =>
      rw [List.length_cons, List.range_succ_eq_map, List.map_cons, List.map_map]
      simp only [List.getD_cons_zero, Function.comp_def, List.getD_cons_succ]
      rw [ih]

/-! ### Claim theorems: match, tournament, fitness adapter -/

set_option maxHeartbeats 1000000 in
/-- C7: a game is exactly 10 rounds, each round player 1 acting as COLOR_A
then player 2 acting as COLOR_B on the same shared field: 10 actions per
color and 20 actions in total, whatever the players do and however many of
their actions fail; the final field is the fold of that fixed action list,
so the match always terminates with no early exit. -/
theorem C7_play_a_game_spec (p1 p2 : Move) (f : Field) :
    (gameActions p1 p2).length = 20
    ∧ ((gameActions p1 p2).map Prod.snd).count 'R' = 10
    ∧ ((gameActions p1 p2).map Prod.snd).count 'B' = 10
    ∧ ((gameActions p1 p2).map Prod.snd)
        = ['R', 'B', 'R', 'B', 'R', 'B', 'R', 'B', 'R', 'B',
           'R', 'B', 'R', 'B', 'R', 'B', 'R', 'B', 'R', 'B']
    ∧ play_a_game p1 p2 f
        = (gameActions p1 p2).foldl (fun fld a => a.1 fld a.2) f :=
  ⟨rfl, rfl, rfl, rfl, rfl⟩

/-- C8: a tournament of `n` players over `r` rounds plays exactly
`r * n * (n - 1)` matches, one per ordered pair of distinct roster indices
per round; its win-counter list stays index-aligned with the roster; each
match gives one win to the strictly higher scorer (none on a tie), so the
win counts sum to at most the number of matches; the grand total is the sum
of both colors' totals over all matches and the high score is the running
maximum of the per-game color maxima; with 2 players and 1 round the
schedule is exactly the two ordered pairs. -/
theorem C8_play_a_tournament_spec (players : List Move) (rounds : ℕ) :
    (matchSchedule rounds players.length).length
        = rounds * players.length * (players.length - 1)
    ∧ (play_a_tournament players rounds).1.length = players.length
    ∧ (play_a_tournament players rounds).1.sum
        ≤ rounds * players.length * (players.length - 1)
    ∧ (play_a_tournament players rounds).2.2
        = ((matchSchedule rounds players.length).map fun ij =>
            (gameScorePair players ij).1 + (gameScorePair players ij).2).sum
    ∧ (play_a_tournament players rounds).2.1
        = (matchSchedule rounds players.length).foldl
            (fun h ij => max h (max (gameScorePair players ij).1
              (gameScorePair players ij).2)) 0
    ∧ (∀ st ij,
        ((gameScorePair players ij).1 > (gameScorePair players ij).2 →
          (playMatch players st ij).1 = st.1.set ij.1 (st.1.getD ij.1 0 + 1))
        ∧ ((gameScorePair players ij).2 > (gameScorePair players ij).1 →
          (playMatch players st ij).1 = st.1.set ij.2 (st.1.getD ij.2 0 + 1))
        ∧ ((gameScorePair players ij).1 = (gameScorePair players ij).2 →
          (playMatch players st ij).1 = st.1))
    ∧ matchSchedule 1 2 = [(0, 1), (1, 0)] := by
  refine ⟨?_, ?_, ?_, ?_, ?_, ?_, rfl⟩
  · rw [matchSchedule_length, Nat.mul_assoc]
  · rw [play_a_tournament, foldl_wins_length, List.length_replicate]
  · have h := foldl_wins_sum players (matchSchedule rounds players.length)
      (List.replicate players.length 0, 0, 0)
    have hz : (List.replicate players.length (0 : ℕ)).sum = 0 := by simp
    rw [play_a_tournament]
    calc ((matchSchedule rounds players.length).foldl (playMatch players)
            (List.replicate players.length 0, 0, 0)).1.sum
        ≤ (List.replicate players.length (0 : ℕ)).sum
            + (matchSchedule rounds players.length).length := h
      _ = rounds * players.length * (players.length - 1) := by
            rw [hz, Nat.zero_add, matchSchedule_length, Nat.mul_assoc]
  · rw [play_a_tournament, foldl_total]
    exact Nat.zero_add _
  · rw [play_a_tournament, foldl_high]
  · intro st ij
    refine ⟨?_, ?_, ?_⟩ <;> intro h <;> simp only [playMatch, gameScorePair] at * <;>
      split_ifs <;> first | rfl | omega


set_option maxRecDepth 32768 in
/-- Witness for C8: with two do-nothing players, the single-round schedule
is the two ordered pairs, and the 0–0 tie leaves the win counters alone. -/
theorem C8_play_a_tournament_spec_witness :
    matchSchedule 1 2 = [(0, 1), (1, 0)]
    ∧ (playMatch [idleMove, idleMove] ([0, 0], 0, 0) (0, 1)).1 = [0, 0] :=
  ⟨(C8_play_a_tournament_spec [idleMove, idleMove] 1).2.2.2.2.2.2,
   ((C8_play_a_tournament_spec [idleMove, idleMove] 1).2.2.2.2.2.1
      ([0, 0], 0, 0) (0, 1)).2.2 (by decide)⟩

/-- C9: `eval_genomes` wraps every genome, in order, in a policy-driven
player, runs exactly one tournament with the default single round over that
full roster, and the fitness values written back are exactly that
tournament's win counters, genome-aligned (0 for a player that wins no
match). -/
theorem C9_eval_genomes_spec {γ : Type} (netOf : γ → Net)
    (genomes : List (ℕ × γ)) :
    eval_genomes netOf genomes
        = (play_a_tournament (genomes.map fun g => neatPlayer (netOf g.2)) 1).1
    ∧ (eval_genomes netOf genomes).length = genomes.length := by
  have hmain : eval_genomes netOf genomes
      = (play_a_tournament (genomes.map fun g => neatPlayer (netOf g.2)) 1).1 := by
    rw [eval_genomes]
    exact map_getD_range _
  refine ⟨hmain, ?_⟩
  rw [hmain, play_a_tournament, foldl_wins_length, List.length_replicate,
    List.length_map]

end ChangeUp
